import Mathlib

set_option maxHeartbeats 1000000

/-!
Verification of the line-scanning and grid extraction core of
pyPurchaseCart (src/main.py): a shallow embedding of `clean_text`,
`parse_table_data`, the per-table part of `extract_table_with_pymupdf_tables`,
and the extraction-method selection in `main`, together with theorems about
the claims of the specification.
-/

namespace PyPurchaseCart

/-- Whitespace predicate matching Python's notion of whitespace, the set used
both by `str.strip()` and by the regex class of whitespace characters (the
Unicode whitespace code points). -/
def pyIsSpace (c : Char) : Bool :=
  c = ' ' || c = '\t' || c = '\n' || c = '\r' || c = '\x0b' || c = '\x0c' ||
  c = '\x1c' || c = '\x1d' || c = '\x1e' || c = '\x1f' || c = '\u0085' || c = '\u00A0' ||
  c = '\u1680' || c = '\u2000' || c = '\u2001' || c = '\u2002' || c = '\u2003' ||
  c = '\u2004' || c = '\u2005' || c = '\u2006' || c = '\u2007' || c = '\u2008' ||
  c = '\u2009' || c = '\u200A' || c = '\u2028' || c = '\u2029' || c = '\u202F' ||
  c = '\u205F' || c = '\u3000'

/-- `str.strip()` on a character list: remove leading and trailing whitespace. -/
def stripChars (cs : List Char) : List Char :=
  ((cs.dropWhile pyIsSpace).reverse.dropWhile pyIsSpace).reverse

/-- `str.strip()`. -/
def pyStrip (s : String) : String := String.mk (stripChars s.data)

/-- `str.lower()`. Restricted to ASCII letters: every character that reaches a
lower-cased comparison in this program is ASCII or already lowercase. -/
def pyLower (s : String) : String := String.mk (s.data.map Char.toLower)

/-- `line.endswith(' ')`: the last character is a space. -/
def lastIsSpace (s : String) : Bool := s.data.getLast? == some ' '

/-- `text.split` on the newline character: split at every newline, keeping
empty pieces, so the empty text yields one empty piece. -/
def splitNl : List Char → List (List Char)
  | [] => [[]]
  | c :: rest =>
    if c = '\n' then [] :: splitNl rest
    else
      match splitNl rest with
      | [] => [[c]]
      | g :: gs => (c :: g) :: gs

/-- `text.split` on the newline character, as strings. -/
def pySplitLines (s : String) : List String := (splitNl s.data).map String.mk

/-- Python's substring containment test on character lists. -/
def containsSub (pat : List Char) : List Char → Bool
  | [] => pat.isEmpty
  | c :: rest => pat.isPrefixOf (c :: rest) || containsSub pat rest

/-- `" ".join(parts)`. -/
def joinSpace : List String → String
  | [] => ""
  | [s] => s
  | s :: s' :: rest => s ++ " " ++ joinSpace (s' :: rest)

/-- The per-character effect of the replacement table at the top of
`clean_text`: the non-breaking space becomes a plain space and five
mis-decoded Greek letters become accented Latin letters. The five replace
calls commute with each other, so their composition acts characterwise. -/
def fixChar (c : Char) : Char :=
  if c = '\u00A0' then ' '
  else if c = 'Θ' then 'é'
  else if c = 'Γ' then 'â'
  else if c = 'π' then 'è'
  else if c = 'Φ' then 'è'
  else if c = 'Ω' then 'é'
  else c

/-- `unicodedata.normalize` to the NFKC form. Modelled as the identity: every
character in this development's inputs (ASCII, precomposed Latin-1 letters,
currency signs, the Greek letters of the replacement table) is its own NFKC
normal form. -/
def nfkcNormalize (s : String) : String := s

/-- The substitution collapsing every whitespace run to one space, written
with a flag recording whether the previous character was whitespace. -/
def collapseGo : Bool → List Char → List Char
  | _, [] => []
  | prevSpace, c :: rest =>
    if pyIsSpace c then
      if prevSpace then collapseGo true rest
      else ' ' :: collapseGo true rest
    else c :: collapseGo false rest

/-- Collapse whitespace runs to single spaces. -/
def collapseSpaces (cs : List Char) : List Char := collapseGo false cs

/-- `clean_text` from the source: the replacement table, NFKC normalization,
whitespace collapse, strip; empty text is returned unchanged. -/
def clean_text (s : String) : String :=
  if s = "" then s
  else pyStrip (String.mk (collapseSpaces (nfkcNormalize (String.mk (s.data.map fixChar))).data))

/-- The currency-symbol character class of the first price substitution. -/
def isCurrency (c : Char) : Bool :=
  c = '€' || c = '$' || c = '£' || c = '¥' || c = '₹' || c = '¢' || c = '¥' ||
  c = '₩' || c = '₪' || c = '₹' || c = '₽'

/-- The substitution deleting each currency symbol together with the
whitespace run following it, written with a flag recording whether the
previous character was deleted as part of such a match. -/
def stripCurrencyGo : Bool → List Char → List Char
  | _, [] => []
  | inSkip, c :: rest =>
    if isCurrency c then stripCurrencyGo true rest
    else if inSkip && pyIsSpace c then stripCurrencyGo true rest
    else c :: stripCurrencyGo false rest

/-- The character class kept by the second price substitution: digits, the
comma and the dot. -/
def keepPriceChar (c : Char) : Bool := c.isDigit || c = ',' || c = '.'

/-- The two price substitutions of the assembler: delete currency symbols with
trailing whitespace, then delete everything that is not a digit, comma or
dot. -/
def normalizePrice (s : String) : String :=
  String.mk ((stripCurrencyGo false s.data).filter keepPriceChar)

/-- The digit search applied to the normalized price. -/
def hasDigit (s : String) : Bool := s.data.any Char.isDigit

/-- One ASCII uppercase letter. -/
def isUpperAscii (c : Char) : Bool := 'A' ≤ c && c ≤ 'Z'

/-- The shape of one uppercase letter followed by exactly six digits. -/
def isLetterSixDigits : List Char → Bool
  | c :: rest => isUpperAscii c && rest.length == 6 && rest.all Char.isDigit
  | [] => false

/-- The shape of exactly four digits. -/
def isFourDigits (cs : List Char) : Bool := cs.length == 4 && cs.all Char.isDigit

/-- The exact item-code alternation anchored at both ends; the captured group
is the whole line. -/
def exactCodeMatch (s : String) : Option String :=
  if isLetterSixDigits s.data || isFourDigits s.data then some s else none

/-- The fallback pattern: four digits at line start followed by whitespace or
end-of-line; the captured group keeps only the four digits. -/
def fallbackCodeMatch (s : String) : Option String :=
  match s.data with
  | a :: b :: c :: d :: rest =>
    if a.isDigit && b.isDigit && c.isDigit && d.isDigit &&
        (rest.isEmpty || pyIsSpace (rest.headD ' ')) then
      some (String.mk [a, b, c, d])
    else none
  | _ => none

/-- Item-code recognition: the exact alternation first, then the four-digit
fallback. -/
def matchItemCode (s : String) : Option String :=
  match exactCodeMatch s with
  | some c => some c
  | none => fallbackCodeMatch s

/-- The next-item-code test inside the record assembler (the same two
patterns). -/
def isCodeLine (s : String) : Bool := (matchItemCode s).isSome

/-- The quantity search: a leading digit run; the captured group is the
maximal run. -/
def qtySearch (s : String) : Option String :=
  let d := s.data.takeWhile Char.isDigit
  if d.isEmpty then none else some (String.mk d)

/-- The pattern of digits followed only by trailing whitespace. -/
def isDigitsThenSpaces (s : String) : Bool :=
  let d := s.data.takeWhile Char.isDigit
  !d.isEmpty && (s.data.drop d.length).all pyIsSpace

/-- The unit-plausibility test guarding quantity capture: the lower-cased line
contains "pi" or "piece", or the line is digits with optional trailing
whitespace. -/
def qtyUnitOk (s : String) : Bool :=
  containsSub "pi".data (pyLower s).data || containsSub "piece".data (pyLower s).data ||
  isDigitsThenSpaces s

/-- One output record of the line-scanning parser: the dictionary with the
Item, Description, Quantity and UnitPrice keys. -/
structure RecordItem where
  item : String
  description : String
  quantity : String
  unitPrice : String
deriving DecidableEq

/-- Quantity resolution: keep a captured quantity; otherwise default to the
literal "1" for a four-digit code and fail for the other shape. -/
def resolveQuantity (qty : Option String) (item_code : String) : Option String :=
  match qty with
  | some q => some q
  | none => if isFourDigits item_code.data then some "1" else none

/-- The record assembler's inner while loop, recursing over the suffix of the
compact lines that starts at position i; returns the cursor after the loop,
the accumulated description lines and the captured quantity. In the source a
quantity is assigned only immediately before the loop breaks, so it is still
unset on the next-item-code exit. -/
def innerGo (orig : Nat → String) :
    List String → Nat → List String → Nat × List String × Option String
  | [], i, desc => (i, desc, none)
  | ls :: rest, i, desc =>
    if isCodeLine ls then (i - 1, desc, none)
    else
      let desc' := desc ++ [ls]
      if lastIsSpace (orig i) then innerGo orig rest (i + 1) desc'
      else
        match rest with
        | [] => (i + 1, desc', none)
        | next :: _ =>
          match qtySearch next with
          | some q => if qtyUnitOk next then (i + 2, desc', some q) else (i + 1, desc', none)
          | none => (i + 1, desc', none)

/-- The option-marker test: the scan position is not the first line and the
previous compact line, stripped, equals the literal "O". -/
def isOptionAt (lines : List String) (i : Nat) : Bool :=
  decide (0 < i) && decide (pyStrip (lines.getD (i - 1) "") = "O")

/-- The price phase of the assembler, entered at cursor j2 (after the
unit-label skip): if no line remains the candidate is dropped; otherwise the
line is read and normalized as the unit price, the cursor advances past it
and past one further total-column line if present, and the record is emitted
exactly when a digit survived normalization. -/
def priceFrom (lines : List String) (j2 : Nat) (item_code description quantity : String) :
    Nat × Option RecordItem :=
  if j2 < lines.length then
    let unit_price := normalizePrice (clean_text (pyStrip (lines.getD j2 "")))
    let j3 := j2 + 1
    let j4 := if j3 < lines.length then j3 + 1 else j3
    if hasDigit unit_price then (j4, some ⟨item_code, description, quantity, unit_price⟩)
    else (j4, none)
  else (j2, none)

/-- From the cursor just past a recognized item code: run the inner loop, drop
empty candidates, resolve the quantity, clean the description, skip a
unit-label line, then run the price phase; every failing check degrades to no
record. -/
def assembleFrom (lines : List String) (orig : Nat → String) (i : Nat) (item_code : String) :
    Nat × Option RecordItem :=
  let res := innerGo orig (lines.drop (i + 1)) (i + 1) []
  let j := res.1
  if res.2.1.isEmpty then (j, none)
  else
    match resolveQuantity res.2.2 item_code with
    | none => (j, none)
    | some quantity =>
      let description := clean_text (joinSpace res.2.1)
      let j2 :=
        if j < lines.length ∧ pyLower (pyStrip (lines.getD j "")) ∈ (["piece", "pièce"] : List String)
        then j + 1 else j
      priceFrom lines j2 item_code description quantity

/-- One iteration of the scanner's outer while loop at cursor i: the next
cursor position and the record this iteration emits, if any. No statement in
the loop body can raise the caught exceptions (every index access is guarded),
so the handler that would advance the cursor by one is dead code. -/
def outerBody (lines : List String) (orig : Nat → String) (i : Nat) : Nat × Option RecordItem :=
  match matchItemCode (pyStrip (lines.getD i "")) with
  | none => (i + 1, none)
  | some item_code =>
    if isOptionAt lines i then (i + 1, none)
    else assembleFrom lines orig i item_code

/-- The outer while loop as a step function on the pair of cursor and emitted
records: apply the body while the cursor is inside the line list. -/
def scanStep (lines : List String) (orig : Nat → String) (s : Nat × List RecordItem) :
    Nat × List RecordItem :=
  if s.1 < lines.length then
    ((outerBody lines orig s.1).1, s.2 ++ ((outerBody lines orig s.1).2).toList)
  else s

/-- The outer while loop with an explicit budget of loop iterations. -/
def scanAux (lines : List String) (orig : Nat → String) :
    Nat → Nat → List RecordItem → List RecordItem
  | 0, _, acc => acc
  | fuel + 1, i, acc =>
    if i < lines.length then
      scanAux lines orig fuel (outerBody lines orig i).1
        (acc ++ ((outerBody lines orig i).2).toList)
    else acc

/-- The compact line sequence of the normalizer: the lines whose stripped form
is non-empty, stored in stripped form. -/
def compact_lines (allLines : List String) : List String :=
  (allLines.filter fun l => pyStrip l ≠ "").map pyStrip

/-- The loop building original_line_map: walk the raw lines with an original
index and a compacted index, recording one pair per retained line. -/
def buildLineMapAux : List String → Nat → Nat → List (Nat × Nat)
  | [], _, _ => []
  | l :: rest, origIdx, cleanedIdx =>
    if pyStrip l ≠ "" then (cleanedIdx, origIdx) :: buildLineMapAux rest (origIdx + 1) (cleanedIdx + 1)
    else buildLineMapAux rest (origIdx + 1) cleanedIdx

/-- original_line_map for a raw line list. -/
def buildLineMap (allLines : List String) : List (Nat × Nat) := buildLineMapAux allLines 0 0

/-- The assembler's per-access original-line lookup: map the compact index
through original_line_map into the raw lines, falling back to the compact
line itself when the index is absent. -/
def origAt (allLines : List String) (lineMap : List (Nat × Nat)) (lines : List String)
    (i : Nat) : String :=
  match lineMap.lookup i with
  | some j => allLines.getD j ""
  | none => lines.getD i ""

/-- `parse_table_data`: split the text into lines, compact them, then scan the
whole document with the given iteration budget for the outer loop. -/
def parse_table_data (text : String) (fuel : Nat) : List RecordItem :=
  let all_lines := pySplitLines text
  let lines := compact_lines all_lines
  scanAux lines (origAt all_lines (buildLineMap all_lines) lines) fuel 0 []

/-- One output record of the grid path: the dictionary with the item_id,
Item, Description, Quantity and UnitPrice keys. -/
structure GridItem where
  item_id : String
  item : String
  description : String
  quantity : String
  unitPrice : String
deriving DecidableEq

/-- Python truthiness of a table cell: present and non-empty. -/
def cellTruthy : Option String → Bool
  | some s => s ≠ ""
  | none => false

/-- The cell rendering `str(cell) if cell else ''`. -/
def cellStr (c : Option String) : String :=
  if cellTruthy c then c.getD "" else ""

/-- Scan the rows top-down for the first row with a truthy cell whose
lower-cased text contains "item"; return the index of the row after it and
the lower-cased header cells. -/
def findHeaderRowAux : List (List (Option String)) → Nat → Option (Nat × List String)
  | [], _ => none
  | row :: rest, idx =>
    if row.any fun cell => cellTruthy cell && containsSub "item".data (pyLower (cellStr cell)).data
    then some (idx + 1, row.map fun cell => if cellTruthy cell then pyLower (cellStr cell) else "")
    else findHeaderRowAux rest (idx + 1)

/-- Header-row detection for one extracted table. -/
def findHeaderRow (tableData : List (List (Option String))) : Option (Nat × List String) :=
  findHeaderRowAux tableData 0

/-- The chained classification of the header cells into the four column
indices, -1 while unresolved; a later matching header cell overwrites an
earlier assignment of the same column. -/
def resolveColsGo : Nat → List String → Int × Int × Int × Int → Int × Int × Int × Int
  | _, [], cols => cols
  | j, h :: rest, (ic, dc, qc, pc) =>
    let cols :=
      if containsSub "item".data h.data || containsSub "product".data h.data then
        ((j : Int), dc, qc, pc)
      else if containsSub "description".data h.data then (ic, (j : Int), qc, pc)
      else if containsSub "quantity".data h.data || containsSub "qty".data h.data then
        (ic, dc, (j : Int), pc)
      else if containsSub "price".data h.data || containsSub "unit".data h.data then
        (ic, dc, qc, (j : Int))
      else (ic, dc, qc, pc)
    resolveColsGo (j + 1) rest cols

/-- The column map derived from a header row. -/
def resolveCols (header : List String) : Int × Int × Int × Int :=
  resolveColsGo 0 header (-1, -1, -1, -1)

/-- The guarded cell read `row_str[j] if j < len(row_str) else ''` for a
resolved column index (the source only reaches it with j non-negative). -/
def idxGet (row_str : List String) (j : Int) : String :=
  if j < (row_str.length : Int) then row_str.getD j.toNat "" else ""

/-- The metadata keywords filtering out document-header noise rows. -/
def metadataKeywords : List String :=
  ["offre", "référence", "client", "identification", "date", "conditions", "consultant",
   "meetingroom"]

/-- Process one data row: the emptiness, two-fields and metadata filters, then
column-mapped or positional field assembly, then the quantity-or-price
guard. -/
def processRow (headerCols : Option (Int × Int × Int × Int)) (counter : Nat)
    (row : List (Option String)) : Option GridItem :=
  if !(row.any cellTruthy) then none
  else
    let row_str := row.map cellStr
    if (row_str.filter fun v => pyStrip v ≠ "").length < 2 then none
    else if metadataKeywords.any fun k => containsSub k.data (pyLower (row_str.headD "")).data
    then none
    else
      let item : GridItem :=
        match headerCols with
        | some (ic, dc, qc, pc) =>
          if 0 ≤ ic ∧ 0 ≤ dc ∧ 0 ≤ qc ∧ 0 ≤ pc then
            ⟨"Item" ++ toString counter, idxGet row_str ic, idxGet row_str dc,
              idxGet row_str qc, idxGet row_str pc⟩
          else
            ⟨"Item" ++ toString counter, row_str.getD 0 "", row_str.getD 1 "",
              row_str.getD 2 "", row_str.getD 3 ""⟩
        | none =>
          ⟨"Item" ++ toString counter, row_str.getD 0 "", row_str.getD 1 "",
            row_str.getD 2 "", row_str.getD 3 ""⟩
      if pyStrip item.quantity ≠ "" ∨ pyStrip item.unitPrice ≠ "" then some item else none

/-- The per-row loop of the grid path with its running item counter. -/
def processRows (headerCols : Option (Int × Int × Int × Int)) :
    List (List (Option String)) → Nat → List GridItem
  | [], _ => []
  | row :: rest, counter =>
    match processRow headerCols counter row with
    | some item => item :: processRows headerCols rest (counter + 1)
    | none => processRows headerCols rest counter

/-- `extract_table_with_pymupdf_tables` restricted to one extracted table:
find the header row, resolve the column map, and process the data rows; the
counter starts at 1 as at the top of the source function. -/
def extract_table_items (tableData : List (List (Option String))) : List GridItem :=
  match findHeaderRow tableData with
  | some (startIdx, header) => processRows (some (resolveCols header)) (tableData.drop startIdx) 1
  | none => processRows none tableData 1

/-- The extraction-method selection in main: grid results are taken when the
method allows the table path; the text parser runs when that left nothing and
the method allows text, or when the method is exactly "text". The Boolean
records whether the text-parsing path ran. -/
def mainStrategy {α : Type} (method : String) (gridItems textItems : List α) : List α × Bool :=
  let items : List α := if method = "table" ∨ method = "both" then gridItems else []
  if (items.isEmpty ∧ (method = "text" ∨ method = "both")) ∨ method = "text" then (textItems, true)
  else (items, false)

/-! Basic lemmas about the string primitives. -/

theorem space_not_digit (c : Char) (h : pyIsSpace c = true) : c.isDigit = false := by
  simp only [pyIsSpace, Bool.or_eq_true, decide_eq_true_eq] at h
  rcases h with
    ((((((((((((((((((((((((((((h|h)|h)|h)|h)|h)|h)|h)|h)|h)|h)|h)|h)|h)|h)|h)|h)|h)|h)|h)|h)|h)|h)|h)|h)|h)|h)|h)|h) <;>
    subst h <;> decide

theorem digit_not_space (c : Char) (h : c.isDigit = true) : pyIsSpace c = false := by
  cases hs : pyIsSpace c with
  | false => rfl
  | true => rw [space_not_digit c hs] at h; exact absurd h (by simp)

theorem dropWhile_eq_self_of_head (p : Char → Bool) (l : List Char)
    (h : ∀ c ∈ l, p c = false) : l.dropWhile p = l := by
  cases l with
  | nil => rfl
  | cons a t => simp [List.dropWhile, h a (by simp)]

theorem head?_dropWhile (p : Char → Bool) (l : List Char) (c : Char)
    (h : (l.dropWhile p).head? = some c) : p c = false := by
  induction l with
  | nil => simp [List.dropWhile] at h
  | cons a t ih =>
    by_cases hp : p a = true
    · rw [List.dropWhile_cons, if_pos hp] at h; exact ih h
    · rw [List.dropWhile_cons, if_neg hp] at h
      simp only [List.head?_cons, Option.some_inj] at h
      subst h; simpa using hp

theorem getLast?_dropWhile (p : Char → Bool) (l : List Char)
    (h : l.dropWhile p ≠ []) : (l.dropWhile p).getLast? = l.getLast? := by
  induction l with
  | nil => simp [List.dropWhile] at h
  | cons a t ih =>
    by_cases hp : p a = true
    · rw [List.dropWhile_cons, if_pos hp] at h ⊢
      rw [ih h]
      cases t with
      | nil => simp [List.dropWhile] at h
      | cons b t' => simp [List.getLast?_cons_cons]
    · rw [List.dropWhile_cons, if_neg hp]

theorem stripChars_head? (l : List Char) (c : Char)
    (h : (stripChars l).head? = some c) : pyIsSpace c = false := by
  unfold stripChars at h
  rw [List.head?_reverse] at h
  have hne : (((l.dropWhile pyIsSpace).reverse).dropWhile pyIsSpace) ≠ [] := by
    intro he; rw [he] at h; simp at h
  rw [getLast?_dropWhile _ _ hne, List.getLast?_reverse] at h
  exact head?_dropWhile pyIsSpace l c h

theorem stripChars_getLast? (l : List Char) (c : Char)
    (h : (stripChars l).getLast? = some c) : pyIsSpace c = false := by
  unfold stripChars at h
  rw [List.getLast?_reverse] at h
  exact head?_dropWhile pyIsSpace _ c h

theorem dropWhile_eq_self_of_head?_not (p : Char → Bool) (l : List Char)
    (h : ∀ c, l.head? = some c → p c = false) : l.dropWhile p = l := by
  cases l with
  | nil => rfl
  | cons a t => simp [List.dropWhile, h a rfl]

theorem stripChars_idem (l : List Char) : stripChars (stripChars l) = stripChars l := by
  have h1 : (stripChars l).dropWhile pyIsSpace = stripChars l :=
    dropWhile_eq_self_of_head?_not _ _ (stripChars_head? l)
  have h2 : (stripChars l).reverse.dropWhile pyIsSpace = (stripChars l).reverse := by
    apply dropWhile_eq_self_of_head?_not
    intro c hc
    rw [List.head?_reverse] at hc
    exact stripChars_getLast? l c hc
  show (((stripChars l).dropWhile pyIsSpace).reverse.dropWhile pyIsSpace).reverse = stripChars l
  rw [h1, h2, List.reverse_reverse]

theorem pyStrip_idem (s : String) : pyStrip (pyStrip s) = pyStrip s := by
  show String.mk (stripChars (stripChars s.data)) = String.mk (stripChars s.data)
  rw [stripChars_idem]

theorem mem_dropWhile_of_notp (p : Char → Bool) (l : List Char) (c : Char)
    (hm : c ∈ l) (hc : p c = false) : c ∈ l.dropWhile p := by
  induction l with
  | nil => simp at hm
  | cons a t ih =>
    by_cases hp : p a = true
    · rw [List.dropWhile_cons, if_pos hp]
      rcases List.mem_cons.mp hm with h|h
      · subst h; rw [hp] at hc; exact absurd hc (by simp)
      · exact ih h
    · rw [List.dropWhile_cons, if_neg hp]; exact hm

theorem stripChars_ne_nil (l : List Char) (c : Char) (hm : c ∈ l)
    (hc : pyIsSpace c = false) : stripChars l ≠ [] := by
  unfold stripChars
  have h1 : c ∈ l.dropWhile pyIsSpace := mem_dropWhile_of_notp _ _ _ hm hc
  have h2 : c ∈ (l.dropWhile pyIsSpace).reverse := by simpa using h1
  have h3 : c ∈ ((l.dropWhile pyIsSpace).reverse).dropWhile pyIsSpace :=
    mem_dropWhile_of_notp _ _ _ h2 hc
  intro he
  rw [List.reverse_eq_nil_iff] at he
  rw [he] at h3
  simp at h3

/-! Lemmas for the price normalizer. -/

theorem currency_not_keep (c : Char) (h : isCurrency c = true) : keepPriceChar c = false := by
  simp only [isCurrency, Bool.or_eq_true, decide_eq_true_eq] at h
  rcases h with ((((((((((h|h)|h)|h)|h)|h)|h)|h)|h)|h)|h) <;> subst h <;> decide

theorem keep_not_currency (c : Char) (h : keepPriceChar c = true) : isCurrency c = false := by
  cases hs : isCurrency c with
  | false => rfl
  | true => rw [currency_not_keep c hs] at h; exact absurd h (by simp)

theorem stripCurrencyGo_eq_self (l : List Char) (h : ∀ c ∈ l, isCurrency c = false) :
    stripCurrencyGo false l = l := by
  induction l with
  | nil => rfl
  | cons a t ih =>
    have ha : isCurrency a = false := h a (by simp)
    simp only [stripCurrencyGo, ha, Bool.false_eq_true, if_false, Bool.false_and]
    rw [ih fun c hc => h c (by simp [hc])]

/-- C6: the price normalization of the assembler (currency symbols with
trailing whitespace removed, then every character that is not a digit, comma
or dot removed) is idempotent, and it maps the euro-prefixed and
dollar-prefixed sample tokens to their digit forms. -/
theorem claim_C6_price_idempotent :
    (∀ s : String, normalizePrice (normalizePrice s) = normalizePrice s) ∧
    normalizePrice "€ 12,50" = "12,50" ∧ normalizePrice "$1234" = "1234" := by
  refine ⟨fun s => ?_, by decide, by decide⟩
  show String.mk ((stripCurrencyGo false
      (String.data (String.mk ((stripCurrencyGo false s.data).filter keepPriceChar)))).filter
        keepPriceChar) = _
  have hmem : ∀ c ∈ (stripCurrencyGo false s.data).filter keepPriceChar, keepPriceChar c = true :=
    fun c hc => (List.mem_filter.mp hc).2
  rw [show String.data (String.mk ((stripCurrencyGo false s.data).filter keepPriceChar)) =
      (stripCurrencyGo false s.data).filter keepPriceChar from rfl]
  rw [stripCurrencyGo_eq_self _ fun c hc => keep_not_currency c (hmem c hc)]
  rw [List.filter_eq_self.mpr hmem]
  rfl

/-- C7: in the dual-path configuration of main (method "both"), a non-empty
grid result is final and the text-parsing path does not run, while an empty
grid result makes the text-parsing path run and provide the output. -/
theorem claim_C7_grid_precedence {α : Type} (gridItems textItems : List α) :
    (gridItems ≠ [] → mainStrategy "both" gridItems textItems = (gridItems, false)) ∧
    (gridItems = [] → mainStrategy "both" gridItems textItems = (textItems, true)) := by
  constructor
  · intro h
    simp [mainStrategy, List.isEmpty_iff, h]
  · intro h
    subst h
    simp [mainStrategy]

theorem claim_C7_witness :
    mainStrategy "both" [1] ([2] : List Nat) = ([1], false) ∧
    mainStrategy "both" ([] : List Nat) [2] = ([2], true) :=
  ⟨(claim_C7_grid_precedence [1] [2]).1 (by decide),
   (claim_C7_grid_precedence [] [2]).2 rfl⟩

/-! Lemmas for the grid path. -/

theorem idxGet_oob (row_str : List String) (j : Int) (h : (row_str.length : Int) ≤ j) :
    idxGet row_str j = "" := by
  unfold idxGet
  rw [if_neg (by omega)]

theorem getD_oob (l : List String) (n : Nat) (h : l.length ≤ n) : l.getD n "" = "" :=
  List.getD_eq_default l "" h

theorem processRow_some_mapped (ic dc qc pc : Int) (counter : Nat) (row : List (Option String))
    (g : GridItem) (hge : 0 ≤ ic ∧ 0 ≤ dc ∧ 0 ≤ qc ∧ 0 ≤ pc)
    (h : processRow (some (ic, dc, qc, pc)) counter row = some g) :
    g = ⟨"Item" ++ toString counter, idxGet (row.map cellStr) ic, idxGet (row.map cellStr) dc,
        idxGet (row.map cellStr) qc, idxGet (row.map cellStr) pc⟩ := by
  simp only [processRow] at h
  rw [if_pos hge] at h
  split at h
  · exact absurd h (by simp)
  · split at h
    · exact absurd h (by simp)
    · split at h
      · exact absurd h (by simp)
      · split at h
        · exact (Option.some_inj.mp h).symm
        · exact absurd h (by simp)

theorem processRow_some_positional (counter : Nat) (row : List (Option String))
    (g : GridItem) (h : processRow none counter row = some g) :
    g = ⟨"Item" ++ toString counter, (row.map cellStr).getD 0 "", (row.map cellStr).getD 1 "",
        (row.map cellStr).getD 2 "", (row.map cellStr).getD 3 ""⟩ := by
  simp only [processRow] at h
  split at h
  · exact absurd h (by simp)
  · split at h
    · exact absurd h (by simp)
    · split at h
      · exact absurd h (by simp)
      · split at h
        · exact (Option.some_inj.mp h).symm
        · exact absurd h (by simp)

/-- C10: in the grid path a data row shorter than a resolved header column
index, or shorter than the four positions used by the positional fallback,
yields the empty string at every out-of-range cell position of the emitted
record; no row length can make the row processing fail. -/
theorem claim_C10_ragged_rows :
    (∀ (ic dc qc pc : Int) (counter : Nat) (row : List (Option String)) (g : GridItem),
      0 ≤ ic → 0 ≤ dc → 0 ≤ qc → 0 ≤ pc →
      processRow (some (ic, dc, qc, pc)) counter row = some g →
      (((row.map cellStr).length : Int) ≤ ic → g.item = "") ∧
      (((row.map cellStr).length : Int) ≤ dc → g.description = "") ∧
      (((row.map cellStr).length : Int) ≤ qc → g.quantity = "") ∧
      (((row.map cellStr).length : Int) ≤ pc → g.unitPrice = "")) ∧
    (∀ (counter : Nat) (row : List (Option String)) (g : GridItem),
      processRow none counter row = some g →
      ((row.map cellStr).length ≤ 1 → g.description = "") ∧
      ((row.map cellStr).length ≤ 2 → g.quantity = "") ∧
      ((row.map cellStr).length ≤ 3 → g.unitPrice = "")) := by
  constructor
  · intro ic dc qc pc counter row g hic hdc hqc hpc h
    rw [processRow_some_mapped ic dc qc pc counter row g ⟨hic, hdc, hqc, hpc⟩ h]
    exact ⟨fun hl => idxGet_oob _ _ hl, fun hl => idxGet_oob _ _ hl,
      fun hl => idxGet_oob _ _ hl, fun hl => idxGet_oob _ _ hl⟩
  · intro counter row g h
    rw [processRow_some_positional counter row g h]
    exact ⟨fun hl => getD_oob _ _ hl, fun hl => getD_oob _ _ hl, fun hl => getD_oob _ _ hl⟩

theorem claim_C10_witness :
    (GridItem.item ⟨"Item1", "", "", "3", "5"⟩ = "" ∧
      GridItem.description ⟨"Item1", "", "", "3", "5"⟩ = "") ∧
    processRow (some ((4 : Int), 5, 0, 1)) 1 [some "3", some "5"] =
      some ⟨"Item1", "", "", "3", "5"⟩ := by
  have h : processRow (some ((4 : Int), 5, 0, 1)) 1 [some "3", some "5"] =
      some ⟨"Item1", "", "", "3", "5"⟩ := by decide
  have hc := (claim_C10_ragged_rows.1 4 5 0 1 1 [some "3", some "5"]
    ⟨"Item1", "", "", "3", "5"⟩ (by decide) (by decide) (by decide) (by decide) h)
  exact ⟨⟨hc.1 (by decide), hc.2.1 (by decide)⟩, h⟩

/-! The line-scanning path: non-termination on adjacent item codes (C1). -/

/-- C1: the claim that parse_table_data terminates on every input fails: on
the two-line input of two adjacent four-digit item codes the outer loop body
maps cursor 0 back to cursor 0 with no emitted record (the inner loop backs
the cursor up to the code's own position and the empty-description continue
does not advance it), so after any number of iterations the loop guard still
holds with unchanged state — the Python loop never exits — and for every
iteration budget the scan built on that body returns no records. -/
theorem claim_C1_parse_nontermination :
    (∀ n : Nat,
      (scanStep (compact_lines (pySplitLines "1234\n5678"))
        (origAt (pySplitLines "1234\n5678") (buildLineMap (pySplitLines "1234\n5678"))
          (compact_lines (pySplitLines "1234\n5678"))))^[n] (0, ([] : List RecordItem)) =
        (0, [])) ∧
    0 < (compact_lines (pySplitLines "1234\n5678")).length ∧
    (∀ fuel : Nat, parse_table_data "1234\n5678" fuel = []) := by
  have hb : outerBody (compact_lines (pySplitLines "1234\n5678"))
      (origAt (pySplitLines "1234\n5678") (buildLineMap (pySplitLines "1234\n5678"))
        (compact_lines (pySplitLines "1234\n5678"))) 0 = (0, none) := by decide
  refine ⟨fun n => ?_, by decide, fun fuel => ?_⟩
  · induction n with
    | zero => rfl
    | succ n ih =>
      rw [Function.iterate_succ_apply', ih]
      decide
  · show scanAux (compact_lines (pySplitLines "1234\n5678"))
      (origAt (pySplitLines "1234\n5678") (buildLineMap (pySplitLines "1234\n5678"))
        (compact_lines (pySplitLines "1234\n5678"))) fuel 0 [] = []
    induction fuel with
    | zero => rfl
    | succ n ih =>
      rw [scanAux, if_pos (by decide), hb]
      simpa using ih

/-! The option-marker suppression (C4). -/

/-- C4: at a compact line matching an item-code shape whose immediately
preceding compact line is the literal "O", the outer loop body advances the
cursor past the code and emits nothing — the record assembler is not
invoked. -/
theorem claim_C4_option_suppression (lines : List String) (orig : Nat → String) (i : Nat)
    (h0 : 0 < i) (hO : lines.getD (i - 1) "" = "O")
    (hc : (matchItemCode (pyStrip (lines.getD i ""))).isSome = true) :
    outerBody lines orig i = (i + 1, none) := by
  obtain ⟨code, hcode⟩ := Option.isSome_iff_exists.mp hc
  have hopt : isOptionAt lines i = true := by
    unfold isOptionAt
    rw [hO, show pyStrip "O" = "O" from by decide]
    simp [h0]
  unfold outerBody
  rw [hcode]
  simp [hopt]

theorem claim_C4_witness :
    outerBody ["O", "1234"] (fun _ => "") 1 = (2, none) :=
  claim_C4_option_suppression ["O", "1234"] (fun _ => "") 1 (by decide) rfl (by decide)

/-! Quantity resolution (C3). -/

theorem six_not_four (cs : List Char) (h : isLetterSixDigits cs = true) : isFourDigits cs = false := by
  cases cs with
  | nil => simp [isLetterSixDigits] at h
  | cons c rest =>
    simp only [isLetterSixDigits, Bool.and_eq_true, beq_iff_eq] at h
    simp [isFourDigits, h.1.2]

theorem priceFrom_some (lines : List String) (j2 : Nat) (c d q : String) (r : RecordItem)
    (h : (priceFrom lines j2 c d q).2 = some r) :
    r = ⟨c, d, q, normalizePrice (clean_text (pyStrip (lines.getD j2 "")))⟩ ∧
    hasDigit r.unitPrice = true := by
  simp only [priceFrom] at h
  split at h
  · split at h
    · rename_i hd
      simp only [Option.some.injEq] at h
      subst h
      exact ⟨rfl, hd⟩
    · exact absurd h (by simp)
  · exact absurd h (by simp)

theorem assembleFrom_qty_none_six (lines : List String) (orig : Nat → String) (i : Nat)
    (code : String) (hq : (innerGo orig (lines.drop (i + 1)) (i + 1) []).2.2 = none)
    (h6 : isLetterSixDigits code.data = true) :
    (assembleFrom lines orig i code).2 = none := by
  simp only [assembleFrom, hq, resolveQuantity, six_not_four _ h6]
  split <;> rfl

theorem assembleFrom_qty_none_four (lines : List String) (orig : Nat → String) (i : Nat)
    (code : String) (hq : (innerGo orig (lines.drop (i + 1)) (i + 1) []).2.2 = none)
    (h4 : isFourDigits code.data = true) (r : RecordItem)
    (hr : (assembleFrom lines orig i code).2 = some r) : r.quantity = "1" := by
  simp only [assembleFrom, hq, resolveQuantity, h4, if_true] at hr
  split at hr
  · exact absurd hr (by simp)
  · rw [(priceFrom_some _ _ _ _ _ _ hr).1]

/-- C3: in the line-scanning path, when the inner loop captured no quantity
for the record opened at cursor i, a record emitted for a four-digit item
code carries the literal quantity "1", and for a letter-plus-six-digits item
code no record is emitted at all. -/
theorem claim_C3_quantity_default (lines : List String) (orig : Nat → String) (i : Nat)
    (code : String)
    (hm : matchItemCode (pyStrip (lines.getD i "")) = some code)
    (hq : (innerGo orig (lines.drop (i + 1)) (i + 1) []).2.2 = none) :
    (isFourDigits code.data = true →
      ∀ r, (outerBody lines orig i).2 = some r → r.quantity = "1") ∧
    (isLetterSixDigits code.data = true → (outerBody lines orig i).2 = none) := by
  unfold outerBody
  rw [hm]
  by_cases hopt : isOptionAt lines i = true
  · simp [hopt]
  · simp only [hopt, if_false, Bool.false_eq_true]
    exact ⟨fun h4 r hr => assembleFrom_qty_none_four lines orig i code hq h4 r hr,
      fun h6 => assembleFrom_qty_none_six lines orig i code hq h6⟩

theorem claim_C3_witness :
    ((outerBody ["1234", "Bolt M6", "piece", "2,50"] (fun _ => "") 0).2 =
      some ⟨"1234", "Bolt M6", "1", "2,50"⟩ ∧
      RecordItem.quantity ⟨"1234", "Bolt M6", "1", "2,50"⟩ = "1") ∧
    (outerBody ["A123456", "Desc", "xxx"] (fun _ => "") 0).2 = none := by
  have h1 : (outerBody ["1234", "Bolt M6", "piece", "2,50"] (fun _ => "") 0).2 =
      some ⟨"1234", "Bolt M6", "1", "2,50"⟩ := by decide
  refine ⟨⟨h1, ?_⟩, ?_⟩
  · exact (claim_C3_quantity_default ["1234", "Bolt M6", "piece", "2,50"] (fun _ => "") 0 "1234"
      (by decide) (by decide)).1 (by decide) _ h1
  · exact (claim_C3_quantity_default ["A123456", "Desc", "xxx"] (fun _ => "") 0 "A123456"
      (by decide) (by decide)).2 (by decide)

/-! List update lemmas and the cursor bound of the inner loop (C9). -/

theorem drop_set_of_lt {α : Type} (l : List α) (i n : Nat) (a : α) (h : i < n) :
    (l.set i a).drop n = l.drop n := by
  induction l generalizing i n with
  | nil => rfl
  | cons x t ih =>
    cases i with
    | zero =>
      cases n with
      | zero => omega
      | succ m => simp [List.set]
    | succ k =>
      cases n with
      | zero => omega
      | succ m =>
        simp only [List.set, List.drop_succ_cons]
        exact ih k m (by omega)

theorem getD_set_ne {α : Type} (l : List α) (i n : Nat) (a d : α) (h : i ≠ n) :
    (l.set i a).getD n d = l.getD n d := by
  show ((l.set i a).get? n).getD d = (l.get? n).getD d
  rw [List.get?_set_ne a l h]

theorem getD_set_eq_of_lt {α : Type} (l : List α) (i : Nat) (a d : α) (h : i < l.length) :
    (l.set i a).getD i d = a := by
  show ((l.set i a).get? i).getD d = a
  rw [List.get?_set_eq_of_lt a h]
  rfl

theorem innerGo_cursor_ge (orig : Nat → String) (rest : List String) (i : Nat) (d0 : List String) :
    i ≤ (innerGo orig rest i d0).1 + 1 ∧
    ((innerGo orig rest i d0).2.1 ≠ d0 → i ≤ (innerGo orig rest i d0).1) := by
  induction rest generalizing i d0 with
  | nil => refine ⟨?_, ?_⟩ <;> simp [innerGo]
  | cons ls rest ih =>
    by_cases hc : isCodeLine ls = true
    · refine ⟨?_, ?_⟩ <;> simp [innerGo, hc]
      omega
    · by_cases hsp : lastIsSpace (orig i) = true
      · have h1 := (ih (i + 1) (d0 ++ [ls])).1
        refine ⟨?_, ?_⟩ <;> simp only [innerGo, hc, hsp, Bool.false_eq_true, if_false, if_true] <;>
          [skip; intro _] <;> omega
      · cases rest with
        | nil =>
          refine ⟨?_, ?_⟩ <;> simp [innerGo, hc, hsp] <;> omega
        | cons next rest2 =>
          cases hq : qtySearch next with
          | none => refine ⟨?_, ?_⟩ <;> simp [innerGo, hc, hsp, hq] <;> omega
          | some q =>
            by_cases hu : qtyUnitOk next = true <;>
              refine ⟨?_, ?_⟩ <;> simp [innerGo, hc, hsp, hq, hu] <;> omega

theorem stripChars_eq_self_of_all (l : List Char) (h : ∀ c ∈ l, pyIsSpace c = false) :
    stripChars l = l := by
  unfold stripChars
  rw [dropWhile_eq_self_of_head pyIsSpace l h,
    dropWhile_eq_self_of_head pyIsSpace l.reverse fun c hc => h c (List.mem_reverse.mp hc),
    List.reverse_reverse]

theorem pyStrip_eq_self (s : String) (h : ∀ c ∈ s.data, pyIsSpace c = false) : pyStrip s = s := by
  show String.mk (stripChars s.data) = s
  rw [stripChars_eq_self_of_all s.data h]

theorem fallback_code_props (s code : String) (h : fallbackCodeMatch s = some code) :
    isFourDigits code.data = true ∧ ∀ ch ∈ code.data, pyIsSpace ch = false := by
  unfold fallbackCodeMatch at h
  split at h
  · rename_i a b c d rest heq
    split at h
    · rename_i hcond
      simp only [Option.some.injEq] at h
      subst h
      simp only [Bool.and_eq_true] at hcond
      obtain ⟨⟨⟨⟨ha, hb⟩, hc⟩, hd⟩, _⟩ := hcond
      refine ⟨by simp [isFourDigits, ha, hb, hc, hd], ?_⟩
      intro ch hch
      have : ch = a ∨ ch = b ∨ ch = c ∨ ch = d := by simpa using hch
      rcases this with rfl | rfl | rfl | rfl
      · exact digit_not_space _ ha
      · exact digit_not_space _ hb
      · exact digit_not_space _ hc
      · exact digit_not_space _ hd
    · exact absurd h (by simp)
  · exact absurd h (by simp)

theorem isOptionAt_set (lines : List String) (i : Nat) (a : String) :
    isOptionAt (lines.set i a) i = isOptionAt lines i := by
  unfold isOptionAt
  cases i with
  | zero => simp
  | succ k => rw [show k + 1 - 1 = k from rfl, getD_set_ne lines (k + 1) k a "" (by omega)]

theorem priceFrom_set (lines : List String) (i j2 : Nat) (a c d q : String) (h : i < j2) :
    priceFrom (lines.set i a) j2 c d q = priceFrom lines j2 c d q := by
  unfold priceFrom
  rw [List.length_set, getD_set_ne lines i j2 a "" (by omega)]

theorem assembleFrom_set (lines : List String) (orig : Nat → String) (i : Nat) (a code : String) :
    assembleFrom (lines.set i a) orig i code = assembleFrom lines orig i code := by
  unfold assembleFrom
  rw [drop_set_of_lt lines i (i + 1) a (by omega)]
  by_cases he : (innerGo orig (lines.drop (i + 1)) (i + 1) []).2.1.isEmpty = true
  · simp only [he, if_true]
  · have hij : i + 1 ≤ (innerGo orig (lines.drop (i + 1)) (i + 1) []).1 :=
      (innerGo_cursor_ge orig (lines.drop (i + 1)) (i + 1) []).2 (by
        intro hnil
        rw [hnil] at he
        exact he rfl)
    simp only [he, Bool.false_eq_true, if_false]
    cases hrq : resolveQuantity (innerGo orig (lines.drop (i + 1)) (i + 1) []).2.2 code with
    | none => rfl
    | some q =>
      rw [List.length_set, getD_set_ne lines i _ a "" (by omega)]
      by_cases hpiece : (innerGo orig (lines.drop (i + 1)) (i + 1) []).1 < lines.length ∧
          pyLower (pyStrip (lines.getD (innerGo orig (lines.drop (i + 1)) (i + 1) []).1 "")) ∈
            (["piece", "pièce"] : List String)
      · rw [if_pos hpiece]
        exact priceFrom_set lines i _ a code _ q (by omega)
      · rw [if_neg hpiece]
        exact priceFrom_set lines i _ a code _ q (by omega)

theorem assembleFrom_item (lines : List String) (orig : Nat → String) (i : Nat)
    (code : String) (r : RecordItem) (h : (assembleFrom lines orig i code).2 = some r) :
    r.item = code := by
  simp only [assembleFrom] at h
  split at h
  · exact absurd h (by simp)
  · split at h
    · exact absurd h (by simp)
    · rw [(priceFrom_some _ _ _ _ _ _ h).1]

/-- C9: when a compact line matches only the fallback code shape (four
digits at line start followed by whitespace and trailing text), the outer
loop body behaves exactly as if the line were just its leading four digits:
the trailing text contributes nothing to the description, quantity or price
of any emitted record, whose code is the four digits, and assembly proceeds
from the next compact line. -/
theorem claim_C9_fallback_tail (lines : List String) (orig : Nat → String) (i : Nat)
    (code : String) (hi : i < lines.length)
    (hex : exactCodeMatch (pyStrip (lines.getD i "")) = none)
    (hfb : fallbackCodeMatch (pyStrip (lines.getD i "")) = some code) :
    outerBody lines orig i = outerBody (lines.set i code) orig i ∧
    ∀ r, (outerBody lines orig i).2 = some r → r.item = code := by
  have hprops := fallback_code_props _ _ hfb
  have hstrip : pyStrip code = code := pyStrip_eq_self code hprops.2
  have hexact : exactCodeMatch code = some code := by
    unfold exactCodeMatch
    rw [if_pos (by simp [hprops.1])]
  have hm1 : matchItemCode (pyStrip (lines.getD i "")) = some code := by
    unfold matchItemCode
    rw [hex]
    exact hfb
  have hm2 : matchItemCode (pyStrip ((lines.set i code).getD i "")) = some code := by
    rw [getD_set_eq_of_lt lines i code "" hi, hstrip]
    unfold matchItemCode
    rw [hexact]
  constructor
  · unfold outerBody
    rw [hm1, hm2, isOptionAt_set lines i code]
    show (if isOptionAt lines i = true then (i + 1, none)
        else assembleFrom lines orig i code) =
      (if isOptionAt lines i = true then (i + 1, none)
        else assembleFrom (lines.set i code) orig i code)
    by_cases hopt : isOptionAt lines i = true
    · rw [if_pos hopt, if_pos hopt]
    · rw [if_neg hopt, if_neg hopt, assembleFrom_set lines orig i code code]
  · intro r hr
    unfold outerBody at hr
    rw [hm1] at hr
    replace hr : (if isOptionAt lines i = true then ((i : Nat) + 1, (none : Option RecordItem))
        else assembleFrom lines orig i code).2 = some r := hr
    by_cases hopt : isOptionAt lines i = true
    · rw [if_pos hopt] at hr
      exact absurd hr (by simp)
    · rw [if_neg hopt] at hr
      exact assembleFrom_item lines orig i code r hr

theorem claim_C9_witness :
    outerBody ["1234 tail", "Bolt", "piece", "2,50"] (fun _ => "") 0 =
      outerBody (["1234 tail", "Bolt", "piece", "2,50"].set 0 "1234") (fun _ => "") 0 ∧
    RecordItem.item ⟨"1234", "Bolt", "1", "2,50"⟩ = "1234" := by
  have h := claim_C9_fallback_tail ["1234 tail", "Bolt", "piece", "2,50"] (fun _ => "") 0 "1234"
    (by decide) (by decide) (by decide)
  exact ⟨h.1, h.2 ⟨"1234", "Bolt", "1", "2,50"⟩ (by decide)⟩

/-! The end-to-end scenario (C5). -/

theorem scanAux_exit (lines : List String) (orig : Nat → String) (fuel i : Nat)
    (acc : List RecordItem) (h : lines.length ≤ i) : scanAux lines orig fuel i acc = acc := by
  cases fuel with
  | zero => rfl
  | succ n => rw [scanAux, if_neg (by omega)]

/-- C5: on the seven sample lines (with the trailing space retained on the
second), the line-scanning parse emits exactly one record: code A123456, the
two description lines joined by a single space, quantity 4, unit price 10,00
-- for every sufficient iteration budget of the outer loop. -/
theorem claim_C5_end_to_end (fuel : Nat) (hf : 1 ≤ fuel) :
    parse_table_data "A123456\nWidget, very long \ndescription piece\n4\npiece\n€10,00\n€40,00"
      fuel =
    [⟨"A123456", "Widget, very long description piece", "4", "10,00"⟩] := by
  obtain ⟨n, rfl⟩ : ∃ n, fuel = n + 1 := ⟨fuel - 1, by omega⟩
  show scanAux
    (compact_lines (pySplitLines
      "A123456\nWidget, very long \ndescription piece\n4\npiece\n€10,00\n€40,00"))
    (origAt (pySplitLines
        "A123456\nWidget, very long \ndescription piece\n4\npiece\n€10,00\n€40,00")
      (buildLineMap (pySplitLines
        "A123456\nWidget, very long \ndescription piece\n4\npiece\n€10,00\n€40,00"))
      (compact_lines (pySplitLines
        "A123456\nWidget, very long \ndescription piece\n4\npiece\n€10,00\n€40,00")))
    (n + 1) 0 [] = [⟨"A123456", "Widget, very long description piece", "4", "10,00"⟩]
  have hb : outerBody
      (compact_lines (pySplitLines
        "A123456\nWidget, very long \ndescription piece\n4\npiece\n€10,00\n€40,00"))
      (origAt (pySplitLines
          "A123456\nWidget, very long \ndescription piece\n4\npiece\n€10,00\n€40,00")
        (buildLineMap (pySplitLines
          "A123456\nWidget, very long \ndescription piece\n4\npiece\n€10,00\n€40,00"))
        (compact_lines (pySplitLines
          "A123456\nWidget, very long \ndescription piece\n4\npiece\n€10,00\n€40,00")))
      0 = (7, some ⟨"A123456", "Widget, very long description piece", "4", "10,00"⟩) := by
    decide
  rw [scanAux, if_pos (by decide), hb]
  exact scanAux_exit _ _ n 7 _ (by decide)

theorem claim_C5_witness :
    parse_table_data "A123456\nWidget, very long \ndescription piece\n4\npiece\n€10,00\n€40,00"
      1 =
    [⟨"A123456", "Widget, very long description piece", "4", "10,00"⟩] :=
  claim_C5_end_to_end 1 (by decide)


theorem buildLineMapAux_lookup (l : List String) (o c k : Nat)
    (hk : k < (l.filter fun s => pyStrip s ≠ "").length) :
    ∃ j, (buildLineMapAux l o c).lookup (c + k) = some (o + j) ∧ j < l.length ∧
      l.getD j "" = (l.filter fun s => pyStrip s ≠ "").getD k "" := by
  induction l generalizing o c k with
  | nil => simp at hk
  | cons a rest ih =>
    by_cases ha : pyStrip a ≠ ""
    · cases k with
      | zero =>
        refine ⟨0, ?_, by simp, ?_⟩
        · simp [buildLineMapAux, ha, List.lookup]
        · simp [List.filter_cons, ha]
      | succ k2 =>
        have hk2 : k2 < (rest.filter fun s => pyStrip s ≠ "").length := by
          have : (List.filter (fun s => decide (pyStrip s ≠ "")) (a :: rest)).length =
              (List.filter (fun s => decide (pyStrip s ≠ "")) rest).length + 1 := by
            simp [List.filter_cons, ha]
          omega
        obtain ⟨j, hlook, hjlt, hget⟩ := ih (o + 1) (c + 1) k2 hk2
        refine ⟨j + 1, ?_, by simpa using Nat.succ_lt_succ hjlt, ?_⟩
        · have hne : (c + (k2 + 1) == c) = false := by simp
          simp only [buildLineMapAux]
          rw [if_pos ha]
          simp only [List.lookup, hne]
          rw [show c + (k2 + 1) = c + 1 + k2 from by omega, hlook]
          congr 1
          omega
        · simpa [List.filter_cons, ha] using hget
    · have hfil : List.filter (fun s => decide (pyStrip s ≠ "")) (a :: rest) =
          List.filter (fun s => decide (pyStrip s ≠ "")) rest := by
        simp only [ne_eq, Decidable.not_not] at ha
        simp [List.filter_cons, ha]
      rw [hfil] at hk
      obtain ⟨j, hlook, hjlt, hget⟩ := ih (o + 1) c k hk
      refine ⟨j + 1, ?_, by simpa using Nat.succ_lt_succ hjlt, ?_⟩
      · simp only [buildLineMapAux]
        rw [if_neg ha, hlook]
        congr 1
        omega
      · rw [hfil]
        simpa using hget

theorem compact_getD (allLines : List String) (k : Nat) :
    (compact_lines allLines).getD k "" =
      pyStrip ((allLines.filter fun l => pyStrip l ≠ "").getD k "") := by
  unfold compact_lines
  show (((allLines.filter fun l => pyStrip l ≠ "").map pyStrip).get? k).getD "" =
    pyStrip (((allLines.filter fun l => pyStrip l ≠ "").get? k).getD "")
  rw [List.get?_map]
  cases h : (allLines.filter fun l => pyStrip l ≠ "").get? k with
  | none =>
    show "" = pyStrip ""
    decide
  | some v => rfl

theorem getD_mem_of_lt {α : Type} (l : List α) (k : Nat) (d : α) (h : k < l.length) :
    l.getD k d ∈ l := by
  show (l.get? k).getD d ∈ l
  rw [List.get?_eq_get h]
  exact List.get_mem l k h

theorem compact_mem (allLines : List String) :
    ∀ s ∈ compact_lines allLines, pyStrip s = s ∧ s ≠ "" := by
  intro s hs
  unfold compact_lines at hs
  obtain ⟨l, hl, rfl⟩ := List.mem_map.mp hs
  have hfil := List.mem_filter.mp hl
  refine ⟨pyStrip_idem l, ?_⟩
  simpa using hfil.2

/-- C8: the line normalizer retains exactly the lines whose stripped form is
non-empty and stores them stripped (each stored line is a fixed point of
stripping and non-empty), the index map resolves the k-th compact position to
the original unstripped text of the k-th retained line, and empty input text
yields one empty raw line, no compact lines and an empty map; the normalizer
is total, so no input is an error. -/
theorem claim_C8_line_normalizer (allLines : List String) :
    (compact_lines allLines).length = (allLines.filter fun l => pyStrip l ≠ "").length ∧
    (∀ k, k < (compact_lines allLines).length →
      origAt allLines (buildLineMap allLines) (compact_lines allLines) k =
        (allLines.filter fun l => pyStrip l ≠ "").getD k "" ∧
      (compact_lines allLines).getD k "" =
        pyStrip (origAt allLines (buildLineMap allLines) (compact_lines allLines) k) ∧
      pyStrip ((compact_lines allLines).getD k "") = (compact_lines allLines).getD k "" ∧
      (compact_lines allLines).getD k "" ≠ "") ∧
    (pySplitLines "" = [""] ∧ compact_lines (pySplitLines "") = [] ∧
      buildLineMap (pySplitLines "") = []) := by
  have hlen : (compact_lines allLines).length =
      (allLines.filter fun l => pyStrip l ≠ "").length := by
    unfold compact_lines
    exact List.length_map _ _
  refine ⟨hlen, ?_, by decide, by decide, by decide⟩
  intro k hk
  have hk2 : k < (allLines.filter fun l => pyStrip l ≠ "").length := hlen ▸ hk
  obtain ⟨j, hlook, hjlt, hget⟩ := buildLineMapAux_lookup allLines 0 0 k hk2
  have hlook2 : List.lookup k (buildLineMapAux allLines 0 0) = some j := by simpa using hlook
  have horig : origAt allLines (buildLineMap allLines) (compact_lines allLines) k =
      (allLines.filter fun l => pyStrip l ≠ "").getD k "" := by
    unfold origAt buildLineMap
    rw [hlook2]
    exact hget
  refine ⟨horig, ?_, ?_, ?_⟩
  · rw [horig]
    exact compact_getD allLines k
  · exact (compact_mem allLines _ (getD_mem_of_lt _ _ _ hk)).1
  · exact (compact_mem allLines _ (getD_mem_of_lt _ _ _ hk)).2

theorem claim_C8_witness :
    (compact_lines ["x ", "", "  ", "y"]).length =
      ((["x ", "", "  ", "y"] : List String).filter fun l => pyStrip l ≠ "").length ∧
    origAt ["x ", "", "  ", "y"] (buildLineMap ["x ", "", "  ", "y"])
      (compact_lines ["x ", "", "  ", "y"]) 1 =
      ((["x ", "", "  ", "y"] : List String).filter fun l => pyStrip l ≠ "").getD 1 "" ∧
    compact_lines (pySplitLines "") = [] := by
  have h := claim_C8_line_normalizer ["x ", "", "  ", "y"]
  exact ⟨h.1, (h.2.1 1 (by decide)).1, h.2.2.2.1⟩


/-! Non-emptiness lemmas for the emitted fields (C2). -/

theorem string_mk_ne_empty (l : List Char) (h : l ≠ []) : String.mk l ≠ "" := by
  intro he
  exact h (congrArg String.data he)

theorem str_ne_of_data (s : String) (h : s.data ≠ []) : s ≠ "" := by
  intro he
  subst he
  exact h rfl

theorem qtySearch_ne (s q : String) (h : qtySearch s = some q) : q ≠ "" := by
  simp only [qtySearch] at h
  split at h
  · exact absurd h (by simp)
  · rename_i hne
    simp only [Option.some.injEq] at h
    subst h
    exact string_mk_ne_empty _ (by simpa using hne)

theorem innerGo_qty_ne (orig : Nat → String) (rest : List String) (i : Nat) (d0 : List String)
    (q : String) (h : (innerGo orig rest i d0).2.2 = some q) : q ≠ "" := by
  induction rest generalizing i d0 with
  | nil => simp [innerGo] at h
  | cons ls rest2 ih =>
    by_cases hc : isCodeLine ls = true
    · simp [innerGo, hc] at h
    · by_cases hsp : lastIsSpace (orig i) = true
      · simp only [innerGo, hc, Bool.false_eq_true, if_false, hsp, if_true] at h
        exact ih _ _ h
      · cases rest2 with
        | nil => simp [innerGo, hc, hsp] at h
        | cons next rest3 =>
          cases hq : qtySearch next with
          | none => simp [innerGo, hc, hsp, hq] at h
          | some q0 =>
            by_cases hu : qtyUnitOk next = true
            · simp [innerGo, hc, hsp, hq, hu] at h
              subst h
              exact qtySearch_ne next q0 hq
            · simp [innerGo, hc, hsp, hq, hu] at h

theorem innerGo_desc_mem (orig : Nat → String) (rest : List String) (i : Nat) (d0 : List String) :
    ∀ s ∈ (innerGo orig rest i d0).2.1, s ∈ d0 ∨ s ∈ rest := by
  induction rest generalizing i d0 with
  | nil =>
    intro s hs
    left
    simpa [innerGo] using hs
  | cons ls rest2 ih =>
    intro s hs
    by_cases hc : isCodeLine ls = true
    · left
      simpa [innerGo, hc] using hs
    · by_cases hsp : lastIsSpace (orig i) = true
      · simp only [innerGo, hc, Bool.false_eq_true, if_false, hsp, if_true] at hs
        rcases ih (i + 1) (d0 ++ [ls]) s hs with h | h
        · rcases List.mem_append.mp h with h2 | h2
          · exact Or.inl h2
          · right
            simp only [List.mem_singleton] at h2
            simp [h2]
        · right
          exact List.mem_cons_of_mem _ h
      · have hbase : s ∈ d0 ++ [ls] → s ∈ d0 ∨ s ∈ ls :: rest2 := by
          intro h
          rcases List.mem_append.mp h with h2 | h2
          · exact Or.inl h2
          · right
            simp only [List.mem_singleton] at h2
            simp [h2]
        cases rest2 with
        | nil =>
          simp only [innerGo, hc, Bool.false_eq_true, if_false, hsp] at hs
          exact hbase hs
        | cons next rest3 =>
          cases hq : qtySearch next with
          | none =>
            simp only [innerGo, hc, Bool.false_eq_true, if_false, hsp, hq] at hs
            exact hbase hs
          | some q0 =>
            by_cases hu : qtyUnitOk next = true
            · simp only [innerGo, hc, Bool.false_eq_true, if_false, hsp, hq, hu, if_true] at hs
              exact hbase hs
            · simp only [innerGo, hc, Bool.false_eq_true, if_false, hsp, hq, hu] at hs
              exact hbase hs

theorem exactCodeMatch_ne (s c : String) (h : exactCodeMatch s = some c) : c ≠ "" := by
  unfold exactCodeMatch at h
  split at h
  · rename_i hshape
    simp only [Option.some.injEq] at h
    rw [← h]
    apply str_ne_of_data
    cases hd : s.data with
    | nil =>
      rw [hd] at hshape
      simp [isLetterSixDigits, isFourDigits] at hshape
    | cons a t => simp [hd]
  · exact absurd h (by simp)

theorem matchItemCode_ne (s code : String) (h : matchItemCode s = some code) : code ≠ "" := by
  unfold matchItemCode at h
  cases he : exactCodeMatch s with
  | some c =>
    rw [he] at h
    simp only [Option.some.injEq] at h
    rw [← h]
    exact exactCodeMatch_ne s c he
  | none =>
    rw [he] at h
    have h4 := (fallback_code_props s code h).1
    intro he2
    subst he2
    simp [isFourDigits] at h4

theorem hasDigit_ne (s : String) (h : hasDigit s = true) : s ≠ "" := by
  intro he
  subst he
  simp [hasDigit] at h

theorem fixChar_not_space (c : Char) (h : pyIsSpace c = false) :
    pyIsSpace (fixChar c) = false := by
  unfold fixChar
  split_ifs with h1 h2 h3 h4 h5 h6
  · subst h1
    exact absurd h (by decide)
  · decide
  · decide
  · decide
  · decide
  · decide
  · exact h

theorem collapseGo_ex (l : List Char) (c : Char) (hm : c ∈ l) (hc : pyIsSpace c = false) :
    ∀ b, ∃ c2 ∈ collapseGo b l, pyIsSpace c2 = false := by
  induction l with
  | nil => simp at hm
  | cons a t ih =>
    intro b
    by_cases ha : pyIsSpace a = true
    · have hct : c ∈ t := by
        rcases List.mem_cons.mp hm with rfl | h
        · rw [ha] at hc
          exact absurd hc (by simp)
        · exact h
      obtain ⟨c2, h1, h2⟩ := ih hct true
      cases b with
      | true =>
        refine ⟨c2, ?_, h2⟩
        simpa [collapseGo, ha] using h1
      | false =>
        refine ⟨c2, ?_, h2⟩
        simp only [collapseGo, ha, if_true, Bool.false_eq_true, if_false]
        exact List.mem_cons_of_mem _ h1
    · rcases List.mem_cons.mp hm with rfl | h
      · refine ⟨c, ?_, hc⟩
        simp [collapseGo, ha]
      · obtain ⟨c2, h1, h2⟩ := ih h false
        refine ⟨c2, ?_, h2⟩
        simp only [collapseGo, ha, Bool.false_eq_true, if_false]
        exact List.mem_cons_of_mem _ h1

theorem nonspace_mem_of_stripped (s : String) (hst : pyStrip s = s) (hne : s ≠ "") :
    ∃ c ∈ s.data, pyIsSpace c = false := by
  have hdata : stripChars s.data = s.data := congrArg String.data hst
  cases hd : s.data with
  | nil =>
    refine absurd ?_ hne
    cases s with
    | mk d => cases hd; rfl
  | cons c t =>
    refine ⟨c, by simp [hd], ?_⟩
    have hh : (stripChars s.data).head? = some c := by
      rw [hdata, hd]
      rfl
    exact stripChars_head? s.data c hh

theorem joinSpace_head_mem (d : String) (rest : List String) (c : Char) (hc : c ∈ d.data) :
    c ∈ (joinSpace (d :: rest)).data := by
  cases rest with
  | nil => simpa [joinSpace] using hc
  | cons e rest2 =>
    show c ∈ (d ++ " " ++ joinSpace (e :: rest2)).data
    simp only [String.data_append]
    exact List.mem_append_left _ (List.mem_append_left _ hc)

theorem clean_text_ne (s : String) (c : Char) (hc : c ∈ s.data) (hns : pyIsSpace c = false) :
    clean_text s ≠ "" := by
  have hsne : s ≠ "" := by
    intro he
    subst he
    simp at hc
  unfold clean_text
  rw [if_neg hsne]
  apply string_mk_ne_empty
  have h1 : fixChar c ∈ s.data.map fixChar := List.mem_map_of_mem fixChar hc
  obtain ⟨c2, h2, h3⟩ := collapseGo_ex (s.data.map fixChar) (fixChar c) h1
    (fixChar_not_space c hns) false
  exact stripChars_ne_nil _ c2 h2 h3

theorem resolveQuantity_ne (qty : Option String) (code q : String)
    (hq : ∀ q0, qty = some q0 → q0 ≠ "") (h : resolveQuantity qty code = some q) : q ≠ "" := by
  cases qty with
  | some q0 =>
    simp only [resolveQuantity, Option.some.injEq] at h
    rw [← h]
    exact hq q0 rfl
  | none =>
    simp only [resolveQuantity] at h
    split at h
    · simp only [Option.some.injEq] at h
      rw [← h]
      decide
    · exact absurd h (by simp)

theorem assembleFrom_some (lines : List String) (orig : Nat → String) (i : Nat)
    (code : String) (r : RecordItem) (h : (assembleFrom lines orig i code).2 = some r) :
    ∃ q j2, resolveQuantity (innerGo orig (lines.drop (i + 1)) (i + 1) []).2.2 code = some q ∧
      (innerGo orig (lines.drop (i + 1)) (i + 1) []).2.1 ≠ [] ∧
      r = ⟨code, clean_text (joinSpace (innerGo orig (lines.drop (i + 1)) (i + 1) []).2.1), q,
        normalizePrice (clean_text (pyStrip (lines.getD j2 "")))⟩ ∧
      hasDigit r.unitPrice = true := by
  simp only [assembleFrom] at h
  split at h
  · exact absurd h (by simp)
  · rename_i hempty
    split at h
    · exact absurd h (by simp)
    · rename_i q hq
      obtain ⟨hr, hd⟩ := priceFrom_some _ _ _ _ _ _ h
      exact ⟨q, _, hq, by simpa using hempty, hr, hd⟩

theorem outerBody_emit_nonempty (lines : List String) (orig : Nat → String) (i : Nat)
    (hinv : ∀ s ∈ lines, pyStrip s = s ∧ s ≠ "") (r : RecordItem)
    (h : (outerBody lines orig i).2 = some r) :
    r.item ≠ "" ∧ r.description ≠ "" ∧ r.quantity ≠ "" ∧ r.unitPrice ≠ "" := by
  unfold outerBody at h
  cases hm : matchItemCode (pyStrip (lines.getD i "")) with
  | none =>
    rw [hm] at h
    exact absurd h (by simp)
  | some code =>
    rw [hm] at h
    replace h : (if isOptionAt lines i = true then ((i : Nat) + 1, (none : Option RecordItem))
        else assembleFrom lines orig i code).2 = some r := h
    by_cases hopt : isOptionAt lines i = true
    · rw [if_pos hopt] at h
      exact absurd h (by simp)
    · rw [if_neg hopt] at h
      obtain ⟨q, j2, hq, hne, hr, hdig⟩ := assembleFrom_some lines orig i code r h
      subst hr
      refine ⟨matchItemCode_ne _ _ hm, ?_, ?_, hasDigit_ne _ hdig⟩
      · obtain ⟨d, t, hd⟩ : ∃ d t, (innerGo orig (lines.drop (i + 1)) (i + 1) []).2.1 = d :: t := by
          cases hcase : (innerGo orig (lines.drop (i + 1)) (i + 1) []).2.1 with
          | nil => exact absurd hcase hne
          | cons d t => exact ⟨d, t, rfl⟩
        have hdmem : d ∈ lines := by
          have h2 := innerGo_desc_mem orig (lines.drop (i + 1)) (i + 1) [] d (by rw [hd]; simp)
          rcases h2 with h2 | h2
          · simp at h2
          · exact List.drop_subset _ _ h2
        obtain ⟨hstr, hne2⟩ := hinv d hdmem
        obtain ⟨c, hc, hcs⟩ := nonspace_mem_of_stripped d hstr hne2
        show clean_text (joinSpace (innerGo orig (lines.drop (i + 1)) (i + 1) []).2.1) ≠ ""
        rw [hd]
        exact clean_text_ne _ c (joinSpace_head_mem d t c hc) hcs
      · show q ≠ ""
        exact resolveQuantity_ne _ code q
          (fun q0 hq0 => innerGo_qty_ne orig (lines.drop (i + 1)) (i + 1) [] q0 hq0) hq

theorem scanAux_mem (lines : List String) (orig : Nat → String) (P : RecordItem → Prop)
    (hP : ∀ i r, (outerBody lines orig i).2 = some r → P r) :
    ∀ (fuel i : Nat) (acc : List RecordItem), (∀ r ∈ acc, P r) →
      ∀ r ∈ scanAux lines orig fuel i acc, P r := by
  intro fuel
  induction fuel with
  | zero =>
    intro i acc hacc r hr
    exact hacc r hr
  | succ n ih =>
    intro i acc hacc r hr
    rw [scanAux] at hr
    split at hr
    · refine ih _ _ ?_ r hr
      intro r2 hr2
      rcases List.mem_append.mp hr2 with h2 | h2
      · exact hacc r2 h2
      · cases ho : (outerBody lines orig i).2 with
        | none =>
          rw [ho] at h2
          simp at h2
        | some rr =>
          rw [ho] at h2
          simp only [Option.toList_some, List.mem_singleton] at h2
          rw [h2]
          exact hP i rr ho
    · exact hacc r hr

theorem processRow_some_guard (headerCols : Option (Int × Int × Int × Int)) (counter : Nat)
    (row : List (Option String)) (g : GridItem) (h : processRow headerCols counter row = some g) :
    pyStrip g.quantity ≠ "" ∨ pyStrip g.unitPrice ≠ "" := by
  simp only [processRow] at h
  split at h
  · exact absurd h (by simp)
  · split at h
    · exact absurd h (by simp)
    · split at h
      · exact absurd h (by simp)
      · split at h
        · rename_i hguard
          simp only [Option.some.injEq] at h
          rw [← h]
          exact hguard
        · exact absurd h (by simp)

theorem processRows_guard (headerCols : Option (Int × Int × Int × Int))
    (rows : List (List (Option String))) :
    ∀ (counter : Nat), ∀ g ∈ processRows headerCols rows counter,
      pyStrip g.quantity ≠ "" ∨ pyStrip g.unitPrice ≠ "" := by
  induction rows with
  | nil =>
    intro counter g hg
    simp [processRows] at hg
  | cons row rest ih =>
    intro counter g hg
    simp only [processRows] at hg
    split at hg
    · rename_i item hp
      rcases List.mem_cons.mp hg with rfl | h2
      · exact processRow_some_guard _ _ _ _ hp
      · exact ih _ g h2
    · exact ih _ g hg

/-- C2 (amended): on the line-scanning path every emitted record has a
non-empty item code, description, quantity and unit price; on the grid path
an emitted record is only guaranteed a non-blank quantity or a non-blank
unit price (its item code and description may be empty). -/
theorem claim_C2_field_nonempty :
    (∀ (text : String) (fuel : Nat), ∀ r ∈ parse_table_data text fuel,
      r.item ≠ "" ∧ r.description ≠ "" ∧ r.quantity ≠ "" ∧ r.unitPrice ≠ "") ∧
    (∀ tableData : List (List (Option String)), ∀ g ∈ extract_table_items tableData,
      pyStrip g.quantity ≠ "" ∨ pyStrip g.unitPrice ≠ "") := by
  constructor
  · intro text fuel r hr
    exact scanAux_mem (compact_lines (pySplitLines text))
      (origAt (pySplitLines text) (buildLineMap (pySplitLines text))
        (compact_lines (pySplitLines text)))
      (fun r2 => r2.item ≠ "" ∧ r2.description ≠ "" ∧ r2.quantity ≠ "" ∧ r2.unitPrice ≠ "")
      (fun i r2 h2 => outerBody_emit_nonempty _ _ i (compact_mem _) r2 h2)
      fuel 0 [] (by simp) r hr
  · intro td g hg
    unfold extract_table_items at hg
    cases hh : findHeaderRow td with
    | some pr =>
      obtain ⟨st, hd2⟩ := pr
      rw [hh] at hg
      replace hg : g ∈ processRows (some (resolveCols hd2)) (td.drop st) 1 := hg
      exact processRows_guard _ _ 1 g hg
    | none =>
      rw [hh] at hg
      replace hg : g ∈ processRows none td 1 := hg
      exact processRows_guard _ _ 1 g hg

/-- The claim as stated is false on the grid path: this single-row grid makes
the grid extractor emit a record whose item code and description are both
empty (only the quantity and price cells are populated). -/
theorem claim_C2_counterexample :
    extract_table_items [[some "", some "", some "3", some "5"]] =
      [⟨"Item1", "", "", "3", "5"⟩] := by
  decide

theorem claim_C2_witness :
    (RecordItem.item ⟨"1234", "Bolt M6", "1", "2,50"⟩ ≠ "" ∧
      RecordItem.description ⟨"1234", "Bolt M6", "1", "2,50"⟩ ≠ "" ∧
      RecordItem.quantity ⟨"1234", "Bolt M6", "1", "2,50"⟩ ≠ "" ∧
      RecordItem.unitPrice ⟨"1234", "Bolt M6", "1", "2,50"⟩ ≠ "") ∧
    (pyStrip (GridItem.quantity ⟨"Item1", "", "", "3", "5"⟩) ≠ "" ∨
      pyStrip (GridItem.unitPrice ⟨"Item1", "", "", "3", "5"⟩) ≠ "") :=
  ⟨claim_C2_field_nonempty.1 "1234\nBolt M6\npiece\n2,50" 1 ⟨"1234", "Bolt M6", "1", "2,50"⟩
      (by decide),
    claim_C2_field_nonempty.2 [[some "", some "", some "3", some "5"]] ⟨"Item1", "", "", "3", "5"⟩
      (by decide)⟩

end PyPurchaseCart
